import Mathlib

/-!
A shallow embedding of the rollrus adapter (rollrus.go), which bridges
logrus log entries to the Rollbar reporting client, together with theorems
about its behaviour.  External collaborators (the Rollbar client, the Go
runtime stack, Go dynamic values) are abstracted by the data they
contribute to the control flow of the adapter.
-/

namespace Rollrus

/-- logrus severity levels, in the order of logrus.AllLevels
(PanicLevel = 0 up to TraceLevel = 6). -/
inductive Level where
  | panic
  | fatal
  | error
  | warn
  | info
  | debug
  | trace
deriving DecidableEq, Repr

/-- Numeric value of a logrus level (logrus.Level is an unsigned integer
with PanicLevel = 0). -/
def Level.toNat : Level → Nat
  | .panic => 0
  | .fatal => 1
  | .error => 2
  | .warn => 3
  | .info => 4
  | .debug => 5
  | .trace => 6

/-- logrus.AllLevels. -/
def allLevels : List Level :=
  [.panic, .fatal, .error, .warn, .info, .debug, .trace]

/-- defaultTriggerLevels from rollrus.go. -/
def defaultTriggerLevels : List Level := [.error, .fatal, .panic]

/-- A Go time.Time value, abstracted to the text produced by
Format(time.RFC3339). -/
structure GoTime where
  rfc3339 : String
deriving DecidableEq, Repr

/-- A Go error value.  Go compares errors with the interface equality
operator; distinct error values carry distinct identities, abstracted here
as a numeric id alongside the text returned by the Error() method. -/
structure GoError where
  errId : Nat
  msg : String
deriving DecidableEq, Repr

/-- A dynamically typed Go value stored in logrus Fields, abstracted by the
capabilities convertFields inspects: whether its dynamic type is exactly
time.Time, whether it implements error, whether it implements fmt.Stringer
(and what String() returns), and the generic rendering produced by
fmt.Sprintf with the plus-v verb. -/
structure GoValue where
  asTime : Option GoTime
  asError : Option GoError
  asStringer : Option String
  generic : String
deriving DecidableEq, Repr

/-- logrus Fields (map from field name to value), as an association list
with distinct keys. -/
abbrev Fields := List (String × GoValue)

/-- A logrus.Entry snapshot. -/
structure Entry where
  level : Level
  message : String
  time : GoTime
  data : Fields

/-- Model of Go fmt formatting of a format string applied to zero operands,
which is what fmt.Errorf(s) performs in extractError: ordinary characters
are copied, a doubled percent prints one percent, a percent followed by a
verb character prints the missing-operand notation, and a trailing percent
prints the no-verb notation.  (Flag and width modifiers after a percent are
not modelled; no input considered here uses them.) -/
def goFmtNoArgs : List Char → List Char
  | [] => []
  | ['%'] => "%!(NOVERB)".data
  | '%' :: '%' :: rest => '%' :: goFmtNoArgs rest
  | '%' :: c :: rest => "%!".data ++ c :: "(MISSING)".data ++ goFmtNoArgs rest
  | c :: rest => c :: goFmtNoArgs rest

/-- fmt.Errorf applied to a message and no operands.  The fresh error
allocation is abstracted to identity 0. -/
def fmtErrorf (format : String) : GoError :=
  { errId := 0, msg := String.mk (goFmtNoArgs format.data) }

/-- wellKnownErrorFields from rollrus.go: logrus.ErrorKey ("error"), then
"err". -/
def wellKnownErrorFields : List String := ["error", "err"]

/-- The loop of extractError: return the first well-known field whose value
has dynamic type error; fields that are absent or not errors are skipped. -/
def findWellKnown : List String → Fields → Option GoError
  | [], _ => none
  | f :: fs, data =>
    match data.lookup f with
    | none => findWellKnown fs data
    | some v =>
      match v.asError with
      | none => findWellKnown fs data
      | some e => some e

/-- extractError from rollrus.go: the first error found in a well-known
field, otherwise fmt.Errorf(entry.Message). -/
def extractError (entry : Entry) : GoError :=
  match findWellKnown wellKnownErrorFields entry.data with
  | some e => e
  | none => fmtErrorf entry.message

/-- The per-value branch of convertFields: the Go type switch tries exact
type time.Time first, then the error interface, then fmt.Stringer, then the
generic rendering. -/
def convertValue (v : GoValue) : String :=
  match v.asTime with
  | some t => t.rfc3339
  | none =>
    match v.asError with
    | some e => e.msg
    | none =>
      match v.asStringer with
      | some s => s
      | none => v.generic

/-- convertFields from rollrus.go. -/
def convertFields (fields : Fields) : List (String × String) :=
  fields.map fun kv => (kv.1, convertValue kv.2)

/-- The module path matched against frame file names in framesToSkip. -/
def logrusPkg : String := "github.com/sirupsen/logrus"

/-- listStarts needle hay: needle is an initial segment of hay. -/
def listStarts : List Char → List Char → Bool
  | [], _ => true
  | _ :: _, [] => false
  | a :: as, b :: bs => a == b && listStarts as bs

/-- listHasSub needle hay: needle occurs contiguously inside hay
(strings.Contains). -/
def listHasSub (needle : List Char) : List Char → Bool
  | [] => needle.isEmpty
  | c :: t => listStarts needle (c :: t) || listHasSub needle t

/-- A runtime call stack, abstracted to the file name runtime.Caller
reports for each frame; the index in the list is the caller depth, and
runtime.Caller succeeds exactly on depths below the length. -/
abbrev Stack := List String

/-- Whether a frame file belongs to the logrus package
(strings.Contains(file, logrus module path)). -/
def inLogrus (file : String) : Bool := listHasSub logrusPkg.data file.data

/-- Loop condition of framesToSkip: runtime.Caller(i) succeeded and the
reported file lies inside logrus. -/
def keepSkipping (stack : Stack) (i : Nat) : Bool :=
  decide (i < stack.length) && inLogrus (stack.getD i "")

/-- The skip loop of framesToSkip: starting at depth i, advance while
keepSkipping holds.  Fuel bounds the search; since runtime.Caller fails at
depth stack.length, fuel stack.length + 1 always suffices to reach the
break. -/
def framesLoop (stack : Stack) : Nat → Nat → Nat
  | 0, i => i
  | fuel + 1, i => if keepSkipping stack i then framesLoop stack fuel (i + 1) else i

/-- framesToSkip from rollrus.go: skip one frame for this function itself,
walk out of logrus, then add 2 (rollbar-go skips too few) and subtract 1. -/
def framesToSkip (stack : Stack) (rollrusSkip : Nat) : Nat :=
  framesLoop stack (stack.length + 1) (rollrusSkip + 1) + 2 - 1

/-- Rollbar severity constants used by the dispatcher. -/
inductive RollbarLevel where
  | crit
  | err
  | warn
  | info
  | debug
deriving DecidableEq, Repr

/-- A synchronous call made to the Rollbar client. -/
inductive Call where
  | errorWithStackSkip (severity : RollbarLevel) (cause : GoError) (skip : Nat)
      (extras : List (String × String))
  | messageWithExtras (severity : RollbarLevel) (message : String)
      (extras : List (String × String))
deriving DecidableEq, Repr

/-- The rollrus Hook.  The embedded Rollbar client handle is external and
omitted; triggers is a Go slice whose nil value is modelled as none. -/
structure Hook where
  triggers : Option (List Level)
  ignoredErrors : List GoError
  ignoreErrorFunc : GoError → Bool
  ignoreFunc : GoError → List (String × String) → Bool
  reported : Bool

/-- The OptionFunc values the package exports, as a closed syntax so that
arbitrary sequences of applied options can be quantified over. -/
inductive OptionF where
  | withLevels (levels : Option (List Level))
  | withMinLevel (level : Level)
  | withIgnoredErrors (errs : List GoError)
  | withIgnoreErrorFunc (fn : GoError → Bool)
  | withIgnoreFunc (fn : GoError → List (String × String) → Bool)

/-- The level list WithMinLevel computes: every l in logrus.AllLevels with
l less than or equal to the given level (smaller numeric level = more
severe). -/
def minLevelList (level : Level) : List Level :=
  allLevels.filter fun l => decide (l.toNat ≤ level.toNat)

/-- Application of one OptionFunc to a hook, as in rollrus.go. -/
def applyOpt : OptionF → Hook → Hook
  | .withLevels ls, h => { h with triggers := ls }
  | .withMinLevel level, h => { h with triggers := some (minLevelList level) }
  | .withIgnoredErrors es, h => { h with ignoredErrors := h.ignoredErrors ++ es }
  | .withIgnoreErrorFunc fn, h => { h with ignoreErrorFunc := fn }
  | .withIgnoreFunc fn, h => { h with ignoreFunc := fn }

/-- NewHookForLevels from rollrus.go (the Rollbar client construction is
external and omitted). -/
def newHookForLevels (_token _env : String) (levels0 : Option (List Level)) : Hook :=
  { triggers := levels0
    ignoredErrors := []
    ignoreErrorFunc := fun _ => false
    ignoreFunc := fun _ _ => false
    reported := false }

/-- NewHook from rollrus.go: the default trigger levels, then the given
options applied in order. -/
def newHook (token env : String) (opts : List OptionF) : Hook :=
  opts.foldl (fun h o => applyOpt o h) (newHookForLevels token env (some defaultTriggerLevels))

/-- Levels from rollrus.go. -/
def levels (h : Hook) : List Level :=
  match h.triggers with
  | none => defaultTriggerLevels
  | some ls => ls

/-- The field map Fire assembles before the third filter stage:
convertFields(entry.Data) with time and msg injected exactly as in Fire. -/
def normFields (entry : Entry) : List (String × String) :=
  let m := convertFields entry.data
  let m1 := if (m.lookup "time").isNone then m ++ [("time", entry.time.rfc3339)] else m
  if (m1.lookup "msg").isNone && entry.message != "" then
    m1 ++ [("msg", entry.message)]
  else m1

/-- report from rollrus.go, returning the updated hook and the list of
Rollbar client calls made. -/
def report (h : Hook) (stack : Stack) (entry : Entry) (cause : GoError)
    (m : List (String × String)) : Hook × List Call :=
  let h2 := { h with reported := true }
  match entry.level with
  | .fatal => (h2, [.errorWithStackSkip .crit cause (framesToSkip stack 2) m])
  | .panic => (h2, [.errorWithStackSkip .crit cause (framesToSkip stack 2) m])
  | .error => (h2, [.errorWithStackSkip .err cause (framesToSkip stack 2) m])
  | .warn => (h2, [.errorWithStackSkip .warn cause (framesToSkip stack 2) m])
  | .info => (h2, [.messageWithExtras .info entry.message m])
  | .debug => (h2, [.messageWithExtras .debug entry.message m])
  | .trace => (h2, [])

/-- Fire from rollrus.go, returning the updated hook, the Rollbar client
calls made, and the Go error value Fire returns to logrus. -/
def fire (h : Hook) (stack : Stack) (entry : Entry) :
    Hook × List Call × Option String :=
  let cause := extractError entry
  if h.ignoredErrors.contains cause then (h, [], none)
  else if h.ignoreErrorFunc cause then (h, [], none)
  else
    let m := normFields entry
    if h.ignoreFunc cause m then (h, [], none)
    else
      let rc := report h stack entry cause m
      (rc.1, rc.2, none)

/-- Whether an entry passes all three filter stages of Fire. -/
def passesFilters (h : Hook) (entry : Entry) : Bool :=
  !h.ignoredErrors.contains (extractError entry)
    && !h.ignoreErrorFunc (extractError entry)
    && !h.ignoreFunc (extractError entry) (normFields entry)

/-- An entry with no error field whose message contains a stray percent. -/
def percentEntry : Entry :=
  { level := .error, message := "100%", time := { rfc3339 := "" }, data := [] }

/-- A hook with the default construction and no ignore configuration. -/
def plainHook : Hook := newHookForLevels "token" "env" (some defaultTriggerLevels)

/-- A plain error-level entry. -/
def boomEntry : Entry :=
  { level := .error, message := "boom"
    time := { rfc3339 := "2020-01-01T00:00:00Z" }, data := [] }

/-- A concrete error value placed on the ignore-list. -/
def boomErr : GoError := { errId := 5, msg := "boom" }

/-- A field value of dynamic type error holding boomErr. -/
def boomVal : GoValue :=
  { asTime := none, asError := some boomErr, asStringer := none, generic := "boom" }

/-- A hook whose static ignore-list contains boomErr. -/
def ignoringHook : Hook :=
  applyOpt (.withIgnoredErrors [boomErr])
    (newHookForLevels "token" "env" (some defaultTriggerLevels))

/-- An entry carrying boomErr in its "err" field. -/
def errFieldEntry : Entry :=
  { level := .error, message := "m", time := { rfc3339 := "T" }
    data := [("err", boomVal)] }

/-- An entry with an empty message and no fields. -/
def emptyMsgEntry : Entry :=
  { level := .error, message := "", time := { rfc3339 := "T" }, data := [] }

/-- An info entry with a non-empty message and no fields. -/
def helloEntry : Entry :=
  { level := .info, message := "hello", time := { rfc3339 := "T2" }, data := [] }

/-- A field value that is simultaneously an error and a Stringer. -/
def stampedErr : GoValue :=
  { asTime := none, asError := some { errId := 1, msg := "E" }
    asStringer := some "S", generic := "G" }

/-! ## Helper lemmas -/

/-- Unfolding of the skip loop with zero fuel. -/
theorem framesLoop_zero (stack : Stack) (i : Nat) : framesLoop stack 0 i = i := rfl

/-- Unfolding of the skip loop with positive fuel. -/
theorem framesLoop_succ (stack : Stack) (fuel i : Nat) :
    framesLoop stack (fuel + 1) i =
      if keepSkipping stack i then framesLoop stack fuel (i + 1) else i := rfl

/-- The skip loop never moves backwards. -/
theorem framesLoop_le (stack : Stack) :
    ∀ fuel i, i ≤ framesLoop stack fuel i := by
  intro fuel
  induction fuel with
  | zero => intro i; exact Nat.le_refl i
  | succ fuel ih =>
    intro i
    rw [framesLoop_succ]
    by_cases hk : keepSkipping stack i = true
    · simp only [hk, if_true]
      exact Nat.le_trans (Nat.le_succ i) (ih (i + 1))
    · simp [hk]

/-- With enough fuel, the skip loop stops at the first depth from i on where
keepSkipping fails, every depth before it satisfying keepSkipping. -/
theorem framesLoop_inv (stack : Stack) :
    ∀ fuel i, stack.length < i + fuel →
      (∀ j, i ≤ j → j < framesLoop stack fuel i → keepSkipping stack j = true)
      ∧ keepSkipping stack (framesLoop stack fuel i) = false := by
  intro fuel
  induction fuel with
  | zero =>
    intro i hlen
    constructor
    · intro j hij hj
      unfold framesLoop at hj
      omega
    · unfold framesLoop keepSkipping
      have hni : ¬ i < stack.length := by omega
      simp [hni]
  | succ fuel ih =>
    intro i hlen
    by_cases hk : keepSkipping stack i = true
    · have hrec := ih (i + 1) (by omega)
      have heq : framesLoop stack (fuel + 1) i = framesLoop stack fuel (i + 1) := by
        rw [framesLoop_succ]
        simp [hk]
      refine ⟨?_, by rw [heq]; exact hrec.2⟩
      intro j hij hj
      rcases Nat.eq_or_lt_of_le hij with hji | hji
      · exact hji ▸ hk
      · exact hrec.1 j hji (heq ▸ hj)
    · have heq : framesLoop stack (fuel + 1) i = i := by
        rw [framesLoop_succ]
        simp [hk]
      refine ⟨?_, by rw [heq]; simpa using hk⟩
      intro j hij hj
      omega

/-- Unfolding of List.lookup on a cons cell. -/
theorem lookup_cons_eq {β : Type} (k a : String) (b : β) (t : List (String × β)) :
    ((a, b) :: t).lookup k = if k == a then some b else t.lookup k := by
  by_cases hk : (k == a) = true <;> simp [List.lookup, hk]

/-- Looking up a key found in the first list ignores the appended tail. -/
theorem lookup_append_some {β : Type} {k : String} {v : β} {l1 : List (String × β)}
    (l2 : List (String × β)) (h : l1.lookup k = some v) :
    (l1 ++ l2).lookup k = some v := by
  induction l1 with
  | nil => simp [List.lookup] at h
  | cons p t ih =>
    obtain ⟨a, b⟩ := p
    rw [lookup_cons_eq] at h
    rw [show ((a, b) :: t) ++ l2 = (a, b) :: (t ++ l2) from rfl, lookup_cons_eq]
    by_cases hk : (k == a) = true
    · simpa [hk] using h
    · simp only [hk, if_false] at h ⊢
      exact ih h

/-- Looking up a key absent from the first list continues in the tail. -/
theorem lookup_append_none {β : Type} {k : String} {l1 : List (String × β)}
    (l2 : List (String × β)) (h : l1.lookup k = none) :
    (l1 ++ l2).lookup k = l2.lookup k := by
  induction l1 with
  | nil => rfl
  | cons p t ih =>
    obtain ⟨a, b⟩ := p
    rw [lookup_cons_eq] at h
    rw [show ((a, b) :: t) ++ l2 = (a, b) :: (t ++ l2) from rfl, lookup_cons_eq]
    by_cases hk : (k == a) = true
    · simp [hk] at h
    · simp only [hk, if_false] at h ⊢
      exact ih h

/-- Lookup commutes with the per-value conversion of convertFields. -/
theorem lookup_convertFields (fields : Fields) (k : String) :
    (convertFields fields).lookup k = (fields.lookup k).map convertValue := by
  induction fields with
  | nil => rfl
  | cons p t ih =>
    obtain ⟨a, v⟩ := p
    show (((a, convertValue v) :: convertFields t).lookup k) = _
    rw [lookup_cons_eq, lookup_cons_eq]
    by_cases hk : (k == a) = true
    · simp [hk]
    · simp only [hk, if_false]
      exact ih

/-! ## Claim theorems -/

/-- C1: framesToSkip walks the stack from depth rollrusSkip + 1, skips
exactly the consecutive frames whose file lies in the logrus package, stops
at the first depth that is past the end of the stack or holds a non-logrus
frame, and returns that depth plus 2 minus 1 (net plus 1). -/
theorem framesToSkip_correct (stack : Stack) (k : Nat) :
    ∃ d, k + 1 ≤ d
      ∧ framesToSkip stack k = d + 1
      ∧ (∀ j, k + 1 ≤ j → j < d →
            j < stack.length ∧ inLogrus (stack.getD j "") = true)
      ∧ (stack.length ≤ d ∨ (d < stack.length ∧ inLogrus (stack.getD d "") = false)) := by
  obtain ⟨hall, hstop⟩ := framesLoop_inv stack (stack.length + 1) (k + 1) (by omega)
  refine ⟨framesLoop stack (stack.length + 1) (k + 1), framesLoop_le stack _ _, ?_, ?_, ?_⟩
  · unfold framesToSkip
    omega
  · intro j hj1 hj2
    have hkeep := hall j hj1 hj2
    unfold keepSkipping at hkeep
    rcases Bool.and_eq_true_iff.mp hkeep with ⟨hlt, hlog⟩
    exact ⟨of_decide_eq_true hlt, hlog⟩
  · unfold keepSkipping at hstop
    rcases Bool.and_eq_false_iff.mp hstop with hlt | hlog
    · left
      have := of_decide_eq_false hlt
      omega
    · by_cases hd : framesLoop stack (stack.length + 1) (k + 1) < stack.length
      · exact Or.inr ⟨hd, hlog⟩
      · left; omega

/-- C2: at an entry with no well-known error field and message "100%", the
extracted cause's description is "100%!(NOVERB)" — fmt.Errorf treats the
message as a format string — and not the message text itself, contradicting
the claim that the description equals the message exactly. -/
theorem extractError_format_verb_divergence :
    (extractError percentEntry).msg = "100%!(NOVERB)"
    ∧ (extractError percentEntry).msg ≠ "100%" := by
  constructor
  · rfl
  · decide

/-- C6: Fire always returns a nil error, both when a filter suppresses the
event and after dispatching a report. -/
theorem fire_returns_nil (h : Hook) (stack : Stack) (entry : Entry) :
    (fire h stack entry).2.2 = none := by
  simp only [fire]
  split_ifs <;> rfl

/-- C7: WithMinLevel sets the trigger list to exactly the levels l with
l less than or equal to the given level — that level itself and every more
severe one — in the order of logrus.AllLevels. -/
theorem withMinLevel_triggers (level0 : Level) (h : Hook) :
    (applyOpt (.withMinLevel level0) h).triggers = some (minLevelList level0)
    ∧ (∀ l : Level, l ∈ minLevelList level0 ↔ l.toNat ≤ level0.toNat)
    ∧ List.Sublist (minLevelList level0) allLevels := by
  refine ⟨rfl, ?_, List.filter_sublist _⟩
  intro l
  constructor
  · intro hl
    have := List.of_mem_filter hl
    simpa using this
  · intro hle
    apply List.mem_filter.mpr
    refine ⟨?_, by simpa using hle⟩
    cases l <;> decide

/-- C3: for an entry that passes all three filter stages, Fire makes exactly
the calls prescribed by its severity: one stack report at CRIT for fatal or
panic, at ERR for error, at WARN for warning; one message report at INFO for
info and at DEBUG for debug; and no client call for any other severity. -/
theorem fire_dispatch (h : Hook) (stack : Stack) (entry : Entry)
    (hIgn : h.ignoredErrors.contains (extractError entry) = false)
    (hFn1 : h.ignoreErrorFunc (extractError entry) = false)
    (hFn2 : h.ignoreFunc (extractError entry) (normFields entry) = false) :
    (fire h stack entry).2.1 =
      match entry.level with
      | .fatal => [.errorWithStackSkip .crit (extractError entry) (framesToSkip stack 2) (normFields entry)]
      | .panic => [.errorWithStackSkip .crit (extractError entry) (framesToSkip stack 2) (normFields entry)]
      | .error => [.errorWithStackSkip .err (extractError entry) (framesToSkip stack 2) (normFields entry)]
      | .warn => [.errorWithStackSkip .warn (extractError entry) (framesToSkip stack 2) (normFields entry)]
      | .info => [.messageWithExtras .info entry.message (normFields entry)]
      | .debug => [.messageWithExtras .debug entry.message (normFields entry)]
      | .trace => [] := by
  have hIgn2 : extractError entry ∉ h.ignoredErrors := by simpa using hIgn
  obtain ⟨lv, msg, tm, da⟩ := entry
  cases lv <;> simp [fire, report, hIgn2, hFn1, hFn2]

/-- C3 witness: a concrete error-level entry against a hook with the default
configuration produces exactly one ERR stack-trace call. -/
theorem fire_dispatch_witness :
    (fire plainHook [] boomEntry).2.1 =
      [.errorWithStackSkip .err (extractError boomEntry)
        (framesToSkip [] 2) (normFields boomEntry)] :=
  fire_dispatch plainHook [] boomEntry rfl rfl rfl

/-- C4: the three filter stages of Fire act in order — static ignore-list
membership of the cause, then the error predicate, then the
error-and-fields predicate on the normalized fields — and whichever stage
matches first makes Fire return at once with no client call and the hook
unchanged. -/
theorem fire_filter_chain (h : Hook) (stack : Stack) (entry : Entry) :
    (h.ignoredErrors.contains (extractError entry) = true →
        fire h stack entry = (h, [], none))
    ∧ (h.ignoredErrors.contains (extractError entry) = false →
        h.ignoreErrorFunc (extractError entry) = true →
        fire h stack entry = (h, [], none))
    ∧ (h.ignoredErrors.contains (extractError entry) = false →
        h.ignoreErrorFunc (extractError entry) = false →
        h.ignoreFunc (extractError entry) (normFields entry) = true →
        fire h stack entry = (h, [], none)) := by
  refine ⟨?_, ?_, ?_⟩
  · intro h1
    have h1m : extractError entry ∈ h.ignoredErrors := by simpa using h1
    simp [fire, h1m]
  · intro h1 h2
    have h1m : extractError entry ∉ h.ignoredErrors := by simpa using h1
    simp [fire, h1m, h2]
  · intro h1 h2 h3
    have h1m : extractError entry ∉ h.ignoredErrors := by simpa using h1
    simp [fire, h1m, h2, h3]

/-- C4 witness: a cause present in the static ignore-list suppresses the
report entirely. -/
theorem fire_filter_chain_witness :
    fire ignoringHook [] errFieldEntry = (ignoringHook, [], none) :=
  (fire_filter_chain ignoringHook [] errFieldEntry).1 (by decide)

/-- C5 counterexample: an entry with an empty message and no caller msg
field gets no msg key injected at all, contradicting the claim that msg is
injected whenever absent. -/
theorem normFields_empty_message_counterexample :
    emptyMsgEntry.data.lookup "msg" = none
    ∧ (normFields emptyMsgEntry).lookup "msg" = none := by
  constructor <;> rfl

/-- C5 amended: the fields Fire passes onward never overwrite a
caller-supplied time or msg field (the caller's value, normalized, wins);
time is injected whenever absent, and msg is injected when absent provided
the log message is non-empty. -/
theorem normFields_time_msg_injection (entry : Entry) :
    (∀ v, entry.data.lookup "time" = some v →
        (normFields entry).lookup "time" = some (convertValue v))
    ∧ (∀ v, entry.data.lookup "msg" = some v →
        (normFields entry).lookup "msg" = some (convertValue v))
    ∧ (entry.data.lookup "time" = none →
        (normFields entry).lookup "time" = some entry.time.rfc3339)
    ∧ (entry.data.lookup "msg" = none → entry.message ≠ "" →
        (normFields entry).lookup "msg" = some entry.message) := by
  have hconv := lookup_convertFields entry.data
  refine ⟨?_, ?_, ?_, ?_⟩
  · intro v hv
    have hc : (convertFields entry.data).lookup "time" = some (convertValue v) := by
      rw [hconv, hv]; rfl
    simp only [normFields, hc, Option.isNone_some, Bool.false_eq_true, if_false]
    split_ifs with h2
    · exact lookup_append_some _ hc
    · exact hc
  · intro v hv
    have hc : (convertFields entry.data).lookup "msg" = some (convertValue v) := by
      rw [hconv, hv]; rfl
    have ht : ((convertFields entry.data) ++ [("time", entry.time.rfc3339)]).lookup "msg"
        = some (convertValue v) := lookup_append_some _ hc
    simp only [normFields]
    split_ifs with h1 h2 h3
    · exfalso
      rw [ht] at h2
      simp at h2
    · exact ht
    · exfalso
      rw [hc] at h3
      simp at h3
    · exact hc
  · intro hv
    have hc : (convertFields entry.data).lookup "time" = none := by
      rw [hconv, hv]; rfl
    have hstep : ((convertFields entry.data) ++ [("time", entry.time.rfc3339)]).lookup "time"
        = some entry.time.rfc3339 := by
      rw [lookup_append_none _ hc]; rfl
    simp only [normFields, hc, Option.isNone_none, if_true]
    split_ifs with h2
    · exact lookup_append_some _ hstep
    · exact hstep
  · intro hv hmsg
    have hc : (convertFields entry.data).lookup "msg" = none := by
      rw [hconv, hv]; rfl
    have hbne : (entry.message != "") = true := bne_iff_ne.mpr hmsg
    have ht : ((convertFields entry.data) ++ [("time", entry.time.rfc3339)]).lookup "msg"
        = none := by
      rw [lookup_append_none _ hc]; rfl
    simp only [normFields]
    split_ifs with h1 h2 h3
    · rw [lookup_append_none _ ht]; rfl
    · exfalso
      rw [ht, hbne] at h2
      simp at h2
    · rw [lookup_append_none _ hc]; rfl
    · exfalso
      rw [hc, hbne] at h3
      simp at h3

/-- C5 witness: with no caller fields, a non-empty message gets both keys
injected. -/
theorem normFields_time_msg_injection_witness :
    (normFields helloEntry).lookup "time" = some "T2"
    ∧ (normFields helloEntry).lookup "msg" = some "hello" :=
  ⟨(normFields_time_msg_injection helloEntry).2.2.1 rfl,
   (normFields_time_msg_injection helloEntry).2.2.2 rfl (by decide)⟩

/-- The WithMinLevel list always contains the panic level, hence is never
empty. -/
theorem minLevelList_ne_nil (level0 : Level) : minLevelList level0 ≠ [] := by
  have hmem : Level.panic ∈ minLevelList level0 := by
    apply List.mem_filter.mpr
    refine ⟨by decide, ?_⟩
    simp [Level.toNat]
  intro hnil
  rw [hnil] at hmem
  exact List.not_mem_nil _ hmem

/-- Any option that is not WithLevels with an explicitly empty list keeps
the triggers either unset or non-empty. -/
theorem applyOpt_triggers_nonempty (o : OptionF) (h : Hook)
    (hh : ∀ ls, h.triggers = some ls → ls ≠ [])
    (ho : ∀ ls, o = OptionF.withLevels ls → ls ≠ some []) :
    ∀ ls, (applyOpt o h).triggers = some ls → ls ≠ [] := by
  cases o with
  | withLevels ls0 =>
    intro ls hls hnil
    simp only [applyOpt] at hls
    exact ho ls0 rfl (by rw [hls, hnil])
  | withMinLevel level0 =>
    intro ls hls
    simp only [applyOpt, Option.some.injEq] at hls
    rw [← hls]
    exact minLevelList_ne_nil level0
  | withIgnoredErrors es =>
    intro ls hls
    exact hh ls (by simpa [applyOpt] using hls)
  | withIgnoreErrorFunc fn =>
    intro ls hls
    exact hh ls (by simpa [applyOpt] using hls)
  | withIgnoreFunc fn =>
    intro ls hls
    exact hh ls (by simpa [applyOpt] using hls)

/-- Folding a list of benign options preserves the trigger invariant. -/
theorem foldl_triggers_nonempty (opts : List OptionF) :
    ∀ h : Hook, (∀ ls, h.triggers = some ls → ls ≠ []) →
      (∀ ls, OptionF.withLevels ls ∈ opts → ls ≠ some []) →
      ∀ ls, (opts.foldl (fun h o => applyOpt o h) h).triggers = some ls → ls ≠ [] := by
  induction opts with
  | nil =>
    intro h hh _
    simpa using hh
  | cons o t ih =>
    intro h hh hopts
    rw [List.foldl_cons]
    apply ih
    · apply applyOpt_triggers_nonempty o h hh
      intro ls ho
      exact hopts ls (by rw [ho]; exact List.mem_cons_self _ _)
    · intro ls hmem
      exact hopts ls (List.mem_cons_of_mem _ hmem)

/-- C8 counterexample: constructing a hook and applying WithLevels with an
explicitly empty (non-nil) level slice makes Levels() return the empty set,
so the trigger set is not always non-empty. -/
theorem levels_empty_counterexample :
    levels (newHook "t" "e" [OptionF.withLevels (some [])]) = [] := rfl

/-- C8 amended: Levels() returns the default trigger set when the triggers
are unset (a nil Go slice), and for a hook built by NewHook the trigger set
is non-empty provided no WithLevels option supplied an explicitly empty
non-nil level list. -/
theorem levels_default_and_nonempty :
    (∀ h : Hook, h.triggers = none → levels h = defaultTriggerLevels)
    ∧ (∀ token env opts,
        (∀ ls, OptionF.withLevels ls ∈ opts → ls ≠ some []) →
        levels (newHook token env opts) ≠ []) := by
  constructor
  · intro h ht
    simp [levels, ht]
  · intro token env opts hopts
    have hinv := foldl_triggers_nonempty opts
      (newHookForLevels token env (some defaultTriggerLevels))
      (by
        intro ls hls
        simp only [newHookForLevels, Option.some.injEq] at hls
        rw [← hls]
        decide)
      hopts
    unfold newHook levels
    cases htr : (opts.foldl (fun h o => applyOpt o h)
        (newHookForLevels token env (some defaultTriggerLevels))).triggers with
    | none => simp [htr, defaultTriggerLevels]
    | some ls =>
      simp only [htr]
      exact hinv ls htr

/-- C8 witness: the nil fallback returns the default set, and a hook built
with a minimum-severity option has non-empty Levels(). -/
theorem levels_default_and_nonempty_witness :
    levels (newHookForLevels "t" "e" none) = defaultTriggerLevels
    ∧ levels (newHook "t" "e" [OptionF.withMinLevel .warn]) ≠ [] :=
  ⟨levels_default_and_nonempty.1 _ rfl,
   levels_default_and_nonempty.2 "t" "e" _ (by intro ls hmem; simp at hmem)⟩

/-- C9: convertFields produces an output entry for every input key exactly
(totality, with the value converted), and the conversion precedence is
fixed: exact type time.Time first, then the error interface, then
fmt.Stringer, then the generic rendering. -/
theorem convertFields_total_and_precedence :
    (∀ (fields : Fields) (k : String),
        (convertFields fields).lookup k = (fields.lookup k).map convertValue)
    ∧ (∀ v : GoValue,
        (∀ t, v.asTime = some t → convertValue v = t.rfc3339)
        ∧ (v.asTime = none → ∀ e, v.asError = some e → convertValue v = e.msg)
        ∧ (v.asTime = none → v.asError = none →
            ∀ s, v.asStringer = some s → convertValue v = s)
        ∧ (v.asTime = none → v.asError = none → v.asStringer = none →
            convertValue v = v.generic)) := by
  constructor
  · exact lookup_convertFields
  · intro v
    obtain ⟨ot, oe, os, g⟩ := v
    refine ⟨?_, ?_, ?_, ?_⟩
    · intro t ht
      cases ht
      rfl
    · intro ht e he
      cases ht
      cases he
      rfl
    · intro ht he s hs
      cases ht
      cases he
      cases hs
      rfl
    · intro ht he hs
      cases ht
      cases he
      cases hs
      rfl

/-- C9 witness: a value that is both an error and a Stringer converts via
its error message, and its field survives conversion. -/
theorem convertFields_total_and_precedence_witness :
    (convertFields [("k", stampedErr)]).lookup "k" = some (convertValue stampedErr)
    ∧ convertValue stampedErr = "E" :=
  ⟨convertFields_total_and_precedence.1 [("k", stampedErr)] "k",
   (convertFields_total_and_precedence.2 stampedErr).2.1 rfl { errId := 1, msg := "E" } rfl⟩

/-- C10: Fire sets the reported flag exactly when the entry passes all
three filter stages (even for severities, such as trace, for which the
dispatcher then makes no client call), leaves the flag unchanged whenever a
filter suppresses the event, and modifies no other hook field. -/
theorem fire_reported_flag (h : Hook) (stack : Stack) (entry : Entry) :
    ((fire h stack entry).1).reported = (passesFilters h entry || h.reported)
    ∧ ((fire h stack entry).1).triggers = h.triggers
    ∧ ((fire h stack entry).1).ignoredErrors = h.ignoredErrors
    ∧ ((fire h stack entry).1).ignoreErrorFunc = h.ignoreErrorFunc
    ∧ ((fire h stack entry).1).ignoreFunc = h.ignoreFunc := by
  obtain ⟨lv, msg, tm, da⟩ := entry
  by_cases h1 : h.ignoredErrors.contains (extractError ⟨lv, msg, tm, da⟩) = true
  · have h1m : extractError ⟨lv, msg, tm, da⟩ ∈ h.ignoredErrors := by simpa using h1
    simp [fire, passesFilters, h1, h1m]
  · have h1f : h.ignoredErrors.contains (extractError ⟨lv, msg, tm, da⟩) = false := by
      simpa using h1
    have h1m : extractError ⟨lv, msg, tm, da⟩ ∉ h.ignoredErrors := by simpa using h1f
    by_cases h2 : h.ignoreErrorFunc (extractError ⟨lv, msg, tm, da⟩) = true
    · simp [fire, passesFilters, h1f, h1m, h2]
    · have h2f : h.ignoreErrorFunc (extractError ⟨lv, msg, tm, da⟩) = false := by
        simpa using h2
      by_cases h3 : h.ignoreFunc (extractError ⟨lv, msg, tm, da⟩)
          (normFields ⟨lv, msg, tm, da⟩) = true
      · simp [fire, passesFilters, h1f, h1m, h2f, h3]
      · have h3f : h.ignoreFunc (extractError ⟨lv, msg, tm, da⟩)
            (normFields ⟨lv, msg, tm, da⟩) = false := by simpa using h3
        cases lv <;> simp [fire, passesFilters, report, h1f, h1m, h2f, h3f]

end Rollrus
